import Mathlib

/-!
Verification development for the HH42 digital-thermometer driver
(`src/src/index.ts`).  The source is a single TypeScript class owning one
serial connection, one line buffer, and one repeating poll timer.  We embed:

* the line pipeline (`processBuffer`, the regex line test, `parseFloat`,
  unit extraction) as pure functions over `List Char`;
* the stateful lifecycle (`initializeSerialPort`, `stopTemperatureReading`,
  the open / data / tick reactions) as a small-step transition system over
  an explicit `Sys` record, with the event loop modelled as a list of
  externally-driven actions.

Machine text is `List Char`; the incoming bytes are decoded by
`Buffer.toString(ascii)` in the source, which maps each byte to the
character with its low 7 bits, so every inbound character is ASCII.
Floating-point results of `parseFloat` are modelled as exact rationals:
every numeric literal the device protocol produces is a short decimal
string, and both the code and the spec speak only about its decimal value.
-/

set_option maxHeartbeats 1000000

namespace HH42

/-- JS whitespace class: the character set of the regex class `\s`, which is
also exactly the set removed by `String.prototype.trim` (WhiteSpace plus
LineTerminator): TAB, LF, VT, FF, CR, SP, NBSP, OGHAM SPACE MARK,
U+2000..U+200A, LINE SEPARATOR, PARAGRAPH SEPARATOR, NNBSP, MMSP,
IDEOGRAPHIC SPACE and BOM. -/
def isJsWs (c : Char) : Bool :=
  c.toNat = 9 || c.toNat = 10 || c.toNat = 11 || c.toNat = 12 || c.toNat = 13 ||
  c.toNat = 32 || c.toNat = 160 || c.toNat = 0x1680 ||
  (0x2000 ≤ c.toNat && c.toNat ≤ 0x200A) ||
  c.toNat = 0x2028 || c.toNat = 0x2029 || c.toNat = 0x202F || c.toNat = 0x205F ||
  c.toNat = 0x3000 || c.toNat = 0xFEFF

/-- JS digit class `\d`, i.e. the code points of `0`..`9`. -/
def isDigit (c : Char) : Bool := 48 ≤ c.toNat && c.toNat ≤ 57

/-- `String.prototype.trim`: remove leading and trailing JS whitespace. -/
def trimJS (s : List Char) : List Char :=
  ((s.dropWhile isJsWs).reverse.dropWhile isJsWs).reverse

/-- Consume at most one leading character satisfying `p` (a regex `[..]?`
atom). -/
def dropOptClass (p : Char → Bool) : List Char → List Char
  | [] => []
  | c :: rest => if p c then rest else c :: rest

/-- Split a maximal run of digits off the front (a regex `\d+`/`\d*` atom,
and the digit scanner of `parseFloat`). -/
def spanDigits (l : List Char) : List Char × List Char :=
  (l.takeWhile isDigit, l.dropWhile isDigit)

/-- The anchored test of the source's regex `^[-\s]?\d+\.\d+\s?[CF]?$`,
unfolded atom by atom.  Each quantifier in the pattern is deterministic on
this pattern (no atom's first character can also start the following
atom), so the single left-to-right pass below accepts exactly the
regex's language. -/
def regexTest (s : List Char) : Bool :=
  let s1 := dropOptClass (fun c => c = '-' || isJsWs c) s
  let d1 := (spanDigits s1).1
  let s2 := (spanDigits s1).2
  if d1.isEmpty then false
  else if s2.head? = some '.' then
    let s3 := s2.tail
    let d2 := (spanDigits s3).1
    let s4 := (spanDigits s3).2
    if d2.isEmpty then false
    else
      let s5 := dropOptClass isJsWs s4
      let s6 := dropOptClass (fun c => c = 'C' || c = 'F') s5
      s6.isEmpty
  else false

/-- Value of a digit string read in base 10. -/
def natValue (l : List Char) : Nat :=
  l.foldl (fun a c => a * 10 + (c.toNat - 48)) 0

/-- `10 ^ n` as a rational, by plain recursion so that it reduces in the
kernel. -/
def pow10 : Nat → ℚ
  | 0 => 1
  | n + 1 => 10 * pow10 n

/-- Scale a mantissa by a (possibly negative) decimal exponent. -/
def applyExp (q : ℚ) : Int → ℚ
  | Int.ofNat n => q * pow10 n
  | Int.negSucc n => q / pow10 (n + 1)

/-- The optional exponent part `[eE][+-]?\d+` accepted after the mantissa by
`parseFloat`; `0` when no well-formed exponent follows (JS backtracks the
whole exponent if the digits are missing). -/
def readExp (r : List Char) : Int :=
  match r with
  | c :: rest =>
    if c = 'e' || c = 'E' then
      let esgn : Int := if rest.head? = some '-' then -1 else 1
      let rest2 := if rest.head? = some '-' || rest.head? = some '+' then rest.tail else rest
      let ed := (spanDigits rest2).1
      if ed.isEmpty then 0 else esgn * (natValue ed : Int)
    else 0
  | [] => 0

/-- Model of the JS builtin `parseFloat`: skip leading whitespace, optional
sign, then the longest prefix of the form `digits [. digits] [exponent]`
(at least one digit overall); `none` models the NaN result.  The
`Infinity` literal is not modelled: in the source `parseFloat` is applied
only to lines accepted by `regexTest`, which always start with a sign,
whitespace or digit followed by digits, so an `Infinity` parse can never
arise there. -/
def parseFloatQ (s : List Char) : Option ℚ :=
  let s1 := s.dropWhile isJsWs
  let sgn : ℚ := if s1.head? = some '-' then -1 else 1
  let s2 := if s1.head? = some '-' || s1.head? = some '+' then s1.tail else s1
  let d1 := (spanDigits s2).1
  let s3 := (spanDigits s2).2
  if s3.head? = some '.' then
    let s4 := s3.tail
    let d2 := (spanDigits s4).1
    let s5 := (spanDigits s4).2
    if d1.isEmpty && d2.isEmpty then none
    else some (applyExp (sgn * ((natValue d1 : ℚ) + (natValue d2 : ℚ) / pow10 d2.length)) (readExp s5))
  else
    if d1.isEmpty then none
    else some (applyExp (sgn * (natValue d1 : ℚ)) (readExp s3))

/-- The unit computation of the source: `trimmedLine.slice(-1)` compared
against `C` and `F`, empty string otherwise. -/
def unitOf (t : List Char) : String :=
  if t.getLast? = some 'C' then "C"
  else if t.getLast? = some 'F' then "F"
  else ""

/-- A reading event payload `{temperatureValue, unit}`. -/
structure Reading where
  temperatureValue : ℚ
  unit : String
deriving DecidableEq

/-- One iteration of the line loop inside `processBuffer`: trim, skip the
`>` / `T` echo artifacts (`continue`), test the regex, and on a match build
the event from `parseFloat` and the last character.  On every line passing
`regexTest` the parse succeeds, so the `getD 0` default is never used
(this is proved below, not assumed). -/
def processLine (line : List Char) : Option Reading :=
  let t := trimJS line
  if t = ['>'] || t = ['T'] then none
  else if regexTest t then
    some { temperatureValue := (parseFloatQ t).getD 0, unit := unitOf t }
  else none

/-- Prepend a character to the first segment of a split result (the
fall-through case of scanning `split`). -/
def consSeg (c : Char) : List (List Char) × List Char → List (List Char) × List Char
  | ([], r) => ([], c :: r)
  | (l :: ls, r) => ((c :: l) :: ls, r)

/-- `buffer.split(CRLF)` with the JS result `segs` presented as
`(segs.dropLast, segs.getLast)`: the leftmost non-overlapping scan for the
two-character separator; the first component is the list of complete lines
the source iterates over, the second the segment it stores back into
`this.buffer` (`lines.pop() qq empty`). -/
def splitCRLF : List Char → List (List Char) × List Char
  | [] => ([], [])
  | [c] => ([], [c])
  | c :: d :: rest =>
    if c = '\r' ∧ d = '\n' then
      let p := splitCRLF rest
      ([] :: p.1, p.2)
    else
      consSeg c (splitCRLF (d :: rest))

/-- The byte text contains the two-character line terminator somewhere. -/
def hasCRLF : List Char → Bool
  | [] => false
  | [_] => false
  | c :: d :: rest => if c = '\r' ∧ d = '\n' then true else hasCRLF (d :: rest)

/-- Rebuild the consumed text from the complete lines (each line followed by
its terminator). -/
def joinCRLF (ls : List (List Char)) : List Char :=
  (ls.map (fun l => l ++ ['\r', '\n'])).flatten

/-- The body of `processBuffer`, acting on an explicit buffer value:
split on CRLF, keep the unterminated tail as the new buffer, and run the
line loop over the complete lines, collecting the emitted reading events
in order. -/
def processBuffer (buf : List Char) : List Char × List Reading :=
  ((splitCRLF buf).2, (splitCRLF buf).1.filterMap processLine)

/-- The on-data reaction iterated over a list of chunks, starting from a
given buffer: each chunk is appended to the buffer
(`this.buffer += data.toString(ascii)`) and `processBuffer` runs; the
emitted readings of all chunks are concatenated in delivery order. -/
def feedChunks (start : List Char) : List (List Char) → List Char × List Reading
  | [] => (start, [])
  | c :: cs =>
    let r1 := processBuffer (start ++ c)
    let r2 := feedChunks r1.1 cs
    (r2.1, r1.2 ++ r2.2)

/-! ### The spec's wording of the accepted pattern

`SpecDecomp` renders the spec sentence "optional leading sign or whitespace,
one or more digits, a decimal point, one or more digits, optional trailing
whitespace, optional trailing single unit letter C or F" as an explicit
decomposition of the trimmed line ("optional" reads as at most one
occurrence, mirroring the single optional atom of the described pattern).
It is compared against `regexTest`, the embedding of the source's regex. -/

/-- The given five segments decompose `t` according to the spec's pattern
description. -/
def SpecDecomp (t pre d1 d2 wsp post : List Char) : Prop :=
  t = pre ++ d1 ++ '.' :: (d2 ++ wsp ++ post) ∧
  (pre = [] ∨ (pre.length = 1 ∧ ∀ c ∈ pre, c = '-' ∨ isJsWs c = true)) ∧
  d1 ≠ [] ∧ (∀ c ∈ d1, isDigit c = true) ∧
  d2 ≠ [] ∧ (∀ c ∈ d2, isDigit c = true) ∧
  (wsp = [] ∨ (wsp.length = 1 ∧ ∀ c ∈ wsp, isJsWs c = true)) ∧
  (post = [] ∨ post = ['C'] ∨ post = ['F'])

instance decidableSpecDecomp (t pre d1 d2 wsp post : List Char) :
    Decidable (SpecDecomp t pre d1 d2 wsp post) := by
  unfold SpecDecomp
  infer_instance

/-- The spec's pattern, as a predicate: some decomposition exists. -/
def specPattern (t : List Char) : Prop :=
  ∃ pre d1 d2 wsp post, SpecDecomp t pre d1 d2 wsp post

/-- The standard decimal value of the numeric portion described by the
spec: sign times `d1.d2` read in base 10. -/
def specValue (pre d1 d2 : List Char) : ℚ :=
  (if pre = ['-'] then -1 else 1) *
    ((natValue d1 : ℚ) + (natValue d2 : ℚ) / pow10 d2.length)

/-! ### The stateful lifecycle

The class state (`portTemperature`, `buffer`, `readingInterval`) plus the
runtime resources it owns (constructed ports, active interval timers) form
`Sys`.  The asynchronous reactions of the event loop are modelled as
externally-driven actions (`Act`): the runtime delivers open / data / tick
events and the caller invokes the public methods; `step` runs the
corresponding handler exactly as the source does.  `SerialPort` opening is
asynchronous (`autoOpen`): construction creates a port that is not yet
open; its `open` event may fire later, at most once, and not after a
close. -/

/-- JS truthiness defaulting `options.x || default` for a numeric option:
an absent option and an explicit `0` both fall back to the default. -/
def truthyNat (v : Option Nat) (d : Nat) : Nat :=
  match v with
  | none => d
  | some n => if n = 0 then d else n

/-- JS truthiness defaulting `options.x || default` for a string option:
an absent option and the empty string both fall back to the default. -/
def truthyStr (v : Option String) (d : String) : String :=
  match v with
  | none => d
  | some s => if s = "" then d else s

/-- The optional configuration accepted by `initializeSerialPort`. -/
structure HH42Options where
  baudRate : Option Nat
  dataBits : Option Nat
  stopBits : Option Nat
  parity : Option String
deriving DecidableEq

/-- The resolved serial configuration passed to the `SerialPort`
constructor. -/
structure Config where
  baudRate : Nat
  dataBits : Nat
  stopBits : Nat
  parity : String
deriving DecidableEq

/-- The defaulting applied in the `SerialPort` constructor call of the
source: each option goes through `|| default`. -/
def resolveConfig (o : HH42Options) : Config :=
  { baudRate := truthyNat o.baudRate 9600
    dataBits := truthyNat o.dataBits 8
    stopBits := truthyNat o.stopBits 1
    parity := truthyStr o.parity "none" }

/-- A constructed `SerialPort` object: `opened` records a completed open,
`closed` a requested close, `rts` the ready-to-send control line. -/
structure Port where
  path : String
  cfg : Config
  opened : Bool
  closed : Bool
  rts : Bool
deriving DecidableEq

def portAt : List Port → Nat → Option Port
  | [], _ => none
  | p :: _, 0 => some p
  | _ :: ps, n + 1 => portAt ps n

def modifyPort (f : Port → Port) : List Port → Nat → List Port
  | [], _ => []
  | p :: ps, 0 => f p :: ps
  | p :: ps, n + 1 => p :: modifyPort f ps n

/-- Full system state: the instance fields of the class (`portTemperature`
as an index into the list of constructed ports, `buffer`,
`readingInterval` as the stored timer id) plus the runtime resources
(`ports`, the active interval `timers` as id/period pairs, a fresh-id
counter) and the observable logs (data `writes` per port, emitted reading
events). -/
structure Sys where
  ports : List Port
  portTemperature : Option Nat
  buffer : List Char
  readingInterval : Option Nat
  timers : List (Nat × Nat)
  nextTimer : Nat
  writes : List (Nat × String)
  readings : List Reading
deriving DecidableEq

/-- State at construction of the class instance. -/
def initState : Sys :=
  { ports := [], portTemperature := none, buffer := [], readingInterval := none,
    timers := [], nextTimer := 0, writes := [], readings := [] }

/-- `isOpen` of the port stored at an index: the open completed and no
close was requested. -/
def isOpenAt (ps : List Port) (pid : Nat) : Bool :=
  match portAt ps pid with
  | some p => p.opened && !p.closed
  | none => false

/-- `port.isOpen` for the port with the given id. -/
def Sys.portIsOpen (s : Sys) (pid : Nat) : Bool :=
  isOpenAt s.ports pid

/-- `stopTemperatureReading()`: if a timer handle is stored, clear that
interval and null the handle; otherwise do nothing. -/
def stopTemperatureReading (s : Sys) : Sys :=
  match s.readingInterval with
  | some id =>
    { s with timers := s.timers.filter (fun tp => tp.1 ≠ id), readingInterval := none }
  | none => s

/-- The close branch of `initializeSerialPort`: close the prior connection
only when it reports open. -/
def closeCurrentIfOpen (s : Sys) : Sys :=
  match s.portTemperature with
  | some pid =>
    if s.portIsOpen pid then
      { s with ports := modifyPort (fun p => { p with closed := true }) s.ports pid }
    else s
  | none => s

/-- `initializeSerialPort(portName, options)`: stop the poll timer, close
the prior connection if open, construct a new port (opening is
asynchronous, so it starts unopened) and point `portTemperature` at it. -/
def initializeSerialPort (s : Sys) (path : String) (o : HH42Options) : Sys :=
  let s1 := stopTemperatureReading s
  let s2 := closeCurrentIfOpen s1
  { s2 with
    ports := s2.ports ++ [{ path := path, cfg := resolveConfig o,
                            opened := false, closed := false, rts := false }],
    portTemperature := some s2.ports.length }

/-- `enterHostMode()`: assert RTS on the current connection if it is open. -/
def enterHostMode (s : Sys) : Sys :=
  match s.portTemperature with
  | some pid =>
    if s.portIsOpen pid then
      { s with ports := modifyPort (fun p => { p with rts := true }) s.ports pid }
    else s
  | none => s

/-- `requestTemperatureReading()`: if the current connection is open, start
a new 524 ms interval timer and store its handle (a previously stored
handle is overwritten without being cleared). -/
def requestTemperatureReading (s : Sys) : Sys :=
  match s.portTemperature with
  | some pid =>
    if s.portIsOpen pid then
      { s with readingInterval := some s.nextTimer,
               timers := s.timers ++ [(s.nextTimer, 524)],
               nextTimer := s.nextTimer + 1 }
    else s
  | none => s

/-- The `open` handler: the runtime marks the port opened, then the handler
body runs `enterHostMode` and `requestTemperatureReading` (both consult
`this.portTemperature`, the *current* port, not necessarily the port whose
event fired). -/
def fireOpen (s : Sys) (pid : Nat) : Sys :=
  let s1 := { s with ports := modifyPort (fun p => { p with opened := true }) s.ports pid }
  requestTemperatureReading (enterHostMode s1)

/-- An `open` event can still fire for a constructed port that has neither
opened nor been closed. -/
def canOpen (s : Sys) (pid : Nat) : Bool :=
  match portAt s.ports pid with
  | some p => !p.opened && !p.closed
  | none => false

/-- One interval tick: `this.portTemperature?.write('T\r\n')` — optional
chaining only guards a null handle, and the write goes to the current
port. -/
def fireTick (s : Sys) : Sys :=
  match s.portTemperature with
  | some pid => { s with writes := s.writes ++ [(pid, "T\r\n")] }
  | none => s

/-- The `data` handler: append the decoded chunk to the shared buffer and
run `processBuffer`, emitting the parsed readings. -/
def onData (s : Sys) (chunk : List Char) : Sys :=
  { s with buffer := (processBuffer (s.buffer ++ chunk)).1,
           readings := s.readings ++ (processBuffer (s.buffer ++ chunk)).2 }

/-- Externally-driven events of the single-threaded event loop. -/
inductive Act where
  | init (path : String) (o : HH42Options)
  | stop
  | openEvt (pid : Nat)
  | tick (tid : Nat)
  | dataEvt (pid : Nat) (chunk : List Char)

/-- One event-loop turn.  Runtime guards: an `open` event only fires for a
constructed, unopened, unclosed port; a tick only fires for an active
(uncancelled) timer; data only arrives on an open port. -/
def step (s : Sys) : Act → Sys
  | Act.init path o => initializeSerialPort s path o
  | Act.stop => stopTemperatureReading s
  | Act.openEvt pid => if canOpen s pid then fireOpen s pid else s
  | Act.tick tid => if s.timers.any (fun tp => tp.1 = tid) then fireTick s else s
  | Act.dataEvt pid chunk => if s.portIsOpen pid then onData s chunk else s

/-- Run a whole event sequence from the freshly constructed instance. -/
def run (acts : List Act) : Sys := acts.foldl step initState

/-- A trace restriction: `open` events fire only for the current
connection, i.e. no previously created connection still has an open in
flight when a later `initialize` has replaced it. -/
def GoodOpen (s : Sys) (a : Act) : Prop :=
  ∀ pid, a = Act.openEvt pid → s.portTemperature = some pid

/-- A trace along which every `open` event targets the then-current
connection. -/
inductive GoodTrace : Sys → List Act → Prop where
  | nil (s : Sys) : GoodTrace s []
  | cons (s : Sys) (a : Act) (acts : List Act) :
      GoodOpen s a → GoodTrace (step s a) acts → GoodTrace s (a :: acts)

/-- The current connection exists and reports open. -/
def isCurrentOpen (s : Sys) : Bool :=
  match s.portTemperature with
  | some pid => s.portIsOpen pid
  | none => false

/-- Number of ports currently reporting open. -/
def openCount (s : Sys) : Nat :=
  (List.range s.ports.length).countP (fun i => s.portIsOpen i)

/-- The re-initialization invariant: the current index is in range, every
open port is the current one, the stored timer handle and the set of
active timers agree (at most one, with the 524 ms period), and a stored
handle implies the current port is open. -/
def Inv (s : Sys) : Prop :=
  (∀ pid, s.portTemperature = some pid → pid < s.ports.length) ∧
  (∀ i, s.portIsOpen i = true → s.portTemperature = some i) ∧
  (s.readingInterval = none → s.timers = []) ∧
  (∀ id, s.readingInterval = some id → s.timers = [(id, 524)]) ∧
  (s.readingInterval.isSome = true → isCurrentOpen s = true)

/-- A discovered port as returned by the platform enumeration; the source
only uses its `path`. -/
structure PortInfo where
  path : String
deriving DecidableEq

/-- `getAvailablePorts()`: the `SerialPort.list()` call either yields the
port records or fails; the `try/catch` of the source maps success to the
list of paths and any failure to the empty list (the error is only
logged, never rethrown). -/
def getAvailablePorts (listResult : Except String (List PortInfo)) : List String :=
  match listResult with
  | Except.ok ports => ports.map (fun p => p.path)
  | Except.error _ => []

/-! ### Character-class facts -/

theorem isDigit_toNat {c : Char} (h : isDigit c = true) :
    48 ≤ c.toNat ∧ c.toNat ≤ 57 := by
  simpa [isDigit] using h

theorem isJsWs_ranges {c : Char} (h : isJsWs c = true) :
    c.toNat = 9 ∨ c.toNat = 10 ∨ c.toNat = 11 ∨ c.toNat = 12 ∨ c.toNat = 13 ∨
    c.toNat = 32 ∨ c.toNat = 160 ∨ c.toNat = 0x1680 ∨
    (0x2000 ≤ c.toNat ∧ c.toNat ≤ 0x200A) ∨
    c.toNat = 0x2028 ∨ c.toNat = 0x2029 ∨ c.toNat = 0x202F ∨ c.toNat = 0x205F ∨
    c.toNat = 0x3000 ∨ c.toNat = 0xFEFF := by
  simpa [isJsWs, or_assoc] using h

theorem char_eq_of_toNat {c d : Char} (h : c.toNat = d.toNat) : c = d :=
  Char.ext (UInt32.ext h)

theorem ws_not_digit {c : Char} (h : isJsWs c = true) : isDigit c = false := by
  have := isJsWs_ranges h
  simp only [isDigit, Bool.and_eq_false_iff, decide_eq_false_iff_not]
  omega

theorem digit_not_ws {c : Char} (h : isDigit c = true) : isJsWs c = false := by
  have := isDigit_toNat h
  simp only [isJsWs]
  simp only [Bool.or_eq_false_iff, Bool.and_eq_false_iff, decide_eq_false_iff_not]
  omega

theorem digit_ne_of_toNat {c : Char} {d : Char} (h : isDigit c = true)
    (hd : ¬ (48 ≤ d.toNat ∧ d.toNat ≤ 57)) : c ≠ d := by
  intro hcd
  exact hd (hcd ▸ isDigit_toNat h)

theorem digit_not_sign_ws {c : Char} (h : isDigit c = true) :
    (c = '-' || isJsWs c) = false := by
  have h1 : c ≠ '-' := digit_ne_of_toNat h (by decide)
  simp [h1, digit_not_ws h]

theorem ws_not_exp {c : Char} (h : isJsWs c = true) : (c = 'e' || c = 'E') = false := by
  have hr := isJsWs_ranges h
  simp only [Bool.or_eq_false_iff, decide_eq_false_iff_not]
  constructor
  · rintro rfl; exact absurd hr (by decide)
  · rintro rfl; exact absurd hr (by decide)

theorem ws_not_sign {c : Char} (h : isJsWs c = true) :
    c ≠ '-' ∧ c ≠ '+' := by
  have hr := isJsWs_ranges h
  constructor
  · rintro rfl; exact absurd hr (by decide)
  · rintro rfl; exact absurd hr (by decide)

/-! ### Scanning helpers -/

theorem dropOptClass_nil (p : Char → Bool) : dropOptClass p [] = [] := rfl

theorem dropOptClass_pos {p : Char → Bool} {c : Char} (l : List Char)
    (h : p c = true) : dropOptClass p (c :: l) = l := by
  simp [dropOptClass, h]

theorem dropOptClass_neg {p : Char → Bool} {c : Char} (l : List Char)
    (h : p c = false) : dropOptClass p (c :: l) = c :: l := by
  simp [dropOptClass, h]

/-- A maximal digit run: if `d` is all digits and `rest` does not begin with
a digit, the digit scanner splits `d ++ rest` back into `(d, rest)`. -/
theorem spanDigits_eq {d rest : List Char} (hd : ∀ c ∈ d, isDigit c = true)
    (hr : ∀ c, rest.head? = some c → isDigit c = false) :
    spanDigits (d ++ rest) = (d, rest) := by
  induction d with
  | nil =>
    simp only [List.nil_append]
    cases rest with
    | nil => rfl
    | cons c t =>
      have := hr c rfl
      simp [spanDigits, List.takeWhile_cons, List.dropWhile_cons, this]
  | cons x xs ih =>
    have hx : isDigit x = true := hd x (by simp)
    have ihx := ih (fun c hc => hd c (by simp [hc]))
    simp only [spanDigits, List.cons_append, List.takeWhile_cons, List.dropWhile_cons, hx,
      if_true] at *
    simp only [Prod.ext_iff] at ihx ⊢
    exact ⟨by rw [ihx.1], by rw [ihx.2]⟩

/-- Any list splits as the optionally-consumed leading character plus the
rest left by `dropOptClass`. -/
theorem dropOptClass_decomp (p : Char → Bool) (t : List Char) :
    ∃ pre, t = pre ++ dropOptClass p t ∧
      (pre = [] ∨ (pre.length = 1 ∧ ∀ c ∈ pre, p c = true)) := by
  cases t with
  | nil => exact ⟨[], rfl, Or.inl rfl⟩
  | cons c rest =>
    by_cases h : p c = true
    · exact ⟨[c], by simp [dropOptClass_pos _ h], Or.inr ⟨rfl, by simpa using h⟩⟩
    · have h' : p c = false := by simpa using h
      exact ⟨[], by simp [dropOptClass_neg _ h'], Or.inl rfl⟩

/-- A list whose head is `a` is `a` consed on its own tail. -/
theorem cons_of_head {l : List Char} {a : Char} (h : l.head? = some a) :
    l = a :: l.tail := by
  cases l with
  | nil => simp at h
  | cons x xs => simp_all

/-- The first character surviving `dropWhile` fails the predicate. -/
theorem head_dropWhile_false {p : Char → Bool} {l : List Char} {c : Char}
    (h : (l.dropWhile p).head? = some c) : p c = false := by
  induction l with
  | nil => simp at h
  | cons x xs ih =>
    by_cases hp : p x = true
    · rw [List.dropWhile_cons, if_pos hp] at h
      exact ih h
    · rw [List.dropWhile_cons, if_neg hp] at h
      simp only [List.head?_cons, Option.some.injEq] at h
      subst h
      simpa using hp

/-- The first digit run of the decomposed tail stops exactly at the decimal
point. -/
theorem span_head_eq {d1 rest : List Char} (hd1 : ∀ c ∈ d1, isDigit c = true) :
    spanDigits (d1 ++ '.' :: rest) = (d1, '.' :: rest) := by
  refine spanDigits_eq hd1 ?_
  intro c hc
  simp only [List.head?_cons, Option.some.injEq] at hc
  cases hc
  decide

/-- The second digit run of the decomposed tail stops exactly at the optional
whitespace / unit-letter suffix. -/
theorem span_tail_eq {d2 wsp post : List Char}
    (hd2 : ∀ c ∈ d2, isDigit c = true)
    (hwsp : wsp = [] ∨ (wsp.length = 1 ∧ ∀ c ∈ wsp, isJsWs c = true))
    (hpost : post = [] ∨ post = ['C'] ∨ post = ['F']) :
    spanDigits (d2 ++ (wsp ++ post)) = (d2, wsp ++ post) := by
  refine spanDigits_eq hd2 ?_
  intro c hc
  rcases hwsp with hwsp | ⟨hwlen, hwmem⟩
  · subst hwsp
    rcases hpost with hp | hp | hp
    · subst hp; simp at hc
    · subst hp
      simp only [List.nil_append, List.head?_cons, Option.some.injEq] at hc
      cases hc; decide
    · subst hp
      simp only [List.nil_append, List.head?_cons, Option.some.injEq] at hc
      cases hc; decide
  · cases wsp with
    | nil => simp at hwlen
    | cons w ws =>
      cases ws with
      | nil =>
        simp only [List.cons_append, List.head?_cons, Option.some.injEq] at hc
        subst hc
        exact ws_not_digit (hwmem w (by simp))
      | cons w2 ws2 => simp at hwlen

/-- Completeness of the source's pattern test against the spec's wording:
every line the spec describes as matching is accepted by the regex. -/
theorem regexTest_of_decomp {t pre d1 d2 wsp post : List Char}
    (h : SpecDecomp t pre d1 d2 wsp post) : regexTest t = true := by
  obtain ⟨ht, hpre, hd1ne, hd1, hd2ne, hd2, hwsp, hpost⟩ := h
  have hdropPre : dropOptClass (fun c => c = '-' || isJsWs c) t
      = d1 ++ '.' :: (d2 ++ wsp ++ post) := by
    rcases hpre with hpre | ⟨hlen, hmem⟩
    · subst hpre
      simp only [List.nil_append] at ht
      subst ht
      cases d1 with
      | nil => exact absurd rfl hd1ne
      | cons x xs =>
        have hx : isDigit x = true := hd1 x (by simp)
        exact dropOptClass_neg _ (digit_not_sign_ws hx)
    · cases pre with
      | nil => simp at hlen
      | cons c cs =>
        cases cs with
        | nil =>
          have hc : (c = '-' || isJsWs c) = true := by
            rcases hmem c (by simp) with hc | hc <;> simp [hc]
          subst ht
          exact dropOptClass_pos _ hc
        | cons d ds => simp at hlen
  have hspan1 : spanDigits (d1 ++ '.' :: (d2 ++ wsp ++ post))
      = (d1, '.' :: (d2 ++ wsp ++ post)) := span_head_eq hd1
  have hspan2 : spanDigits (d2 ++ (wsp ++ post)) = (d2, wsp ++ post) :=
    span_tail_eq hd2 hwsp hpost
  have hdropWs : dropOptClass isJsWs (wsp ++ post) = post := by
    rcases hwsp with hwsp | ⟨hwlen, hwmem⟩
    · subst hwsp
      rcases hpost with hp | hp | hp <;> subst hp
      · rfl
      · exact dropOptClass_neg _ (by decide)
      · exact dropOptClass_neg _ (by decide)
    · cases wsp with
      | nil => simp at hwlen
      | cons w ws =>
        cases ws with
        | nil => exact dropOptClass_pos _ (hwmem w (by simp))
        | cons w2 ws2 => simp at hwlen
  have hdropCF : dropOptClass (fun c => c = 'C' || c = 'F') post = [] := by
    rcases hpost with hp | hp | hp <;> subst hp
    · rfl
    · exact dropOptClass_pos _ (by decide)
    · exact dropOptClass_pos _ (by decide)
  have hs11 : (spanDigits (d1 ++ '.' :: (d2 ++ wsp ++ post))).1 = d1 := by rw [hspan1]
  have hs12 : (spanDigits (d1 ++ '.' :: (d2 ++ wsp ++ post))).2
      = '.' :: (d2 ++ wsp ++ post) := by rw [hspan1]
  have hs21 : (spanDigits (d2 ++ (wsp ++ post))).1 = d2 := by rw [hspan2]
  have hs22 : (spanDigits (d2 ++ (wsp ++ post))).2 = wsp ++ post := by rw [hspan2]
  subst ht
  simp only [regexTest, hdropPre, hs11, hs12]
  rw [if_neg (by simpa [List.isEmpty_iff] using hd1ne)]
  rw [if_pos (by simp)]
  simp only [List.tail_cons, List.append_assoc, hs21, hs22]
  rw [if_neg (by simpa [List.isEmpty_iff] using hd2ne)]
  simp [hdropWs, hdropCF]

/-- Soundness of the source's pattern test against the spec's wording:
every line the regex accepts decomposes as the spec describes. -/
theorem decomp_of_regexTest {t : List Char} (h : regexTest t = true) :
    specPattern t := by
  obtain ⟨pre, hpre_eq, hpre⟩ :=
    dropOptClass_decomp (fun c => c = '-' || isJsWs c) t
  set s1 := dropOptClass (fun c => c = '-' || isJsWs c) t with hs1
  have hsplit1 : s1.takeWhile isDigit ++ s1.dropWhile isDigit = s1 :=
    List.takeWhile_append_dropWhile _ _
  simp only [regexTest, ← hs1] at h
  set d1 := s1.takeWhile isDigit with hd1def
  set s2 := s1.dropWhile isDigit with hs2def
  have hproj1 : (spanDigits s1).1 = d1 := rfl
  have hproj2 : (spanDigits s1).2 = s2 := rfl
  rw [hproj1, hproj2] at h
  by_cases hne1 : d1.isEmpty
  · rw [if_pos hne1] at h; simp at h
  rw [if_neg hne1] at h
  by_cases hhd : s2.head? = some '.'
  swap
  · rw [if_neg hhd] at h; simp at h
  rw [if_pos hhd] at h
  have hs2 : s2 = '.' :: s2.tail := cons_of_head hhd
  set s3 := s2.tail with hs3def
  have hsplit2 : s3.takeWhile isDigit ++ s3.dropWhile isDigit = s3 :=
    List.takeWhile_append_dropWhile _ _
  set d2 := s3.takeWhile isDigit with hd2def
  set s4 := s3.dropWhile isDigit with hs4def
  have hproj3 : (spanDigits s3).1 = d2 := rfl
  have hproj4 : (spanDigits s3).2 = s4 := rfl
  rw [hproj3, hproj4] at h
  by_cases hne2 : d2.isEmpty
  · rw [if_pos hne2] at h; simp at h
  rw [if_neg hne2] at h
  obtain ⟨wsp, hwsp_eq, hwsp⟩ := dropOptClass_decomp isJsWs s4
  set s5 := dropOptClass isJsWs s4 with hs5
  obtain ⟨post, hpost_eq, hpost⟩ :=
    dropOptClass_decomp (fun c => c = 'C' || c = 'F') s5
  set s6 := dropOptClass (fun c => c = 'C' || c = 'F') s5 with hs6
  have hs6nil : s6 = [] := by simpa [List.isEmpty_iff] using h
  rw [hs6nil, List.append_nil] at hpost_eq
  refine ⟨pre, d1, d2, wsp, post, ?_, ?_, ?_, ?_, ?_, ?_, ?_, ?_⟩
  · rw [hpre_eq, ← hsplit1, hs2, ← hsplit2, hwsp_eq, hpost_eq]
    simp [List.append_assoc]
  · rcases hpre with hp | ⟨hl, hm⟩
    · exact Or.inl hp
    · refine Or.inr ⟨hl, fun c hc => ?_⟩
      have := hm c hc
      simpa using this
  · simpa [List.isEmpty_iff] using hne1
  · exact fun c hc => List.mem_takeWhile_imp hc
  · simpa [List.isEmpty_iff] using hne2
  · exact fun c hc => List.mem_takeWhile_imp hc
  · rcases hwsp with hw | ⟨hl, hm⟩
    · exact Or.inl hw
    · exact Or.inr ⟨hl, hm⟩
  · rcases hpost with hp | ⟨hl, hm⟩
    · exact Or.inl hp
    · cases post with
      | nil => exact Or.inl rfl
      | cons u us =>
        cases us with
        | nil =>
          have := hm u (by simp)
          rcases (by simpa using this : u = 'C' ∨ u = 'F') with hu | hu <;>
            subst hu <;> simp
        | cons u2 us2 => simp at hl

theorem applyExp_zero (q : ℚ) : applyExp q 0 = q := by
  simp [applyExp, pow10]

/-- The exponent scanner finds nothing after the fraction digits of a
decomposed line: the next character, if any, is whitespace or a unit
letter. -/
theorem readExp_decomp_zero {wsp post : List Char}
    (hwsp : wsp = [] ∨ (wsp.length = 1 ∧ ∀ c ∈ wsp, isJsWs c = true))
    (hpost : post = [] ∨ post = ['C'] ∨ post = ['F']) :
    readExp (wsp ++ post) = 0 := by
  rcases hwsp with hwsp | ⟨hwlen, hwmem⟩
  · subst hwsp
    rcases hpost with hp | hp | hp <;> subst hp
    · rfl
    · simp [readExp]
    · simp [readExp]
  · cases wsp with
    | nil => simp at hwlen
    | cons w ws =>
      cases ws with
      | nil =>
        have hw := ws_not_exp (hwmem w (by simp))
        simp [readExp, hw]
      | cons w2 ws2 => simp at hwlen

/-- On a line matching the spec's pattern, the modelled `parseFloat` returns
exactly the standard decimal value of the leading numeric portion. -/
theorem parseFloatQ_of_decomp {t pre d1 d2 wsp post : List Char}
    (h : SpecDecomp t pre d1 d2 wsp post) :
    parseFloatQ t = some (specValue pre d1 d2) := by
  obtain ⟨ht, hpre, hd1ne, hd1, hd2ne, hd2, hwsp, hpost⟩ := h
  have ht' : t = pre ++ (d1 ++ '.' :: (d2 ++ (wsp ++ post))) := by
    rw [ht]; simp [List.append_assoc]
  clear ht
  obtain ⟨x, xs, hd1c⟩ : ∃ x xs, d1 = x :: xs := by
    cases d1 with
    | nil => exact absurd rfl hd1ne
    | cons x xs => exact ⟨x, xs, rfl⟩
  have hx : isDigit x = true := hd1 x (by simp [hd1c])
  have hxws : isJsWs x = false := digit_not_ws hx
  have hxm : x ≠ '-' := digit_ne_of_toNat hx (by decide)
  have hxp : x ≠ '+' := digit_ne_of_toNat hx (by decide)
  have hspan1 : spanDigits (d1 ++ '.' :: (d2 ++ (wsp ++ post)))
      = (d1, '.' :: (d2 ++ (wsp ++ post))) := span_head_eq hd1
  have hs11 : (spanDigits (d1 ++ '.' :: (d2 ++ (wsp ++ post)))).1 = d1 := by rw [hspan1]
  have hs12 : (spanDigits (d1 ++ '.' :: (d2 ++ (wsp ++ post)))).2
      = '.' :: (d2 ++ (wsp ++ post)) := by rw [hspan1]
  have hspan2 : spanDigits (d2 ++ (wsp ++ post)) = (d2, wsp ++ post) :=
    span_tail_eq hd2 hwsp hpost
  have hs21 : (spanDigits (d2 ++ (wsp ++ post))).1 = d2 := by rw [hspan2]
  have hs22 : (spanDigits (d2 ++ (wsp ++ post))).2 = wsp ++ post := by rw [hspan2]
  have hre : readExp (wsp ++ post) = 0 := readExp_decomp_zero hwsp hpost
  by_cases hsig : pre = ['-']
  · have hdrop : t.dropWhile isJsWs = '-' :: (d1 ++ '.' :: (d2 ++ (wsp ++ post))) := by
      rw [ht', hsig]
      simp only [List.cons_append, List.nil_append]
      rw [List.dropWhile_cons, if_neg (by decide)]
    simp only [parseFloatQ, hdrop]
    simp [hs11, hs12, hs21, hs22, hre, applyExp_zero, specValue, hsig, hd1ne]
  · have hdrop : t.dropWhile isJsWs = d1 ++ '.' :: (d2 ++ (wsp ++ post)) := by
      rcases hpre with hp | ⟨hlen, hmem⟩
      · rw [ht', hp, List.nil_append, hd1c]
        simp only [List.cons_append]
        rw [List.dropWhile_cons, if_neg (by simp [hxws])]
      · cases pre with
        | nil => simp at hlen
        | cons c cs =>
          cases cs with
          | nil =>
            rcases hmem c (by simp) with hc | hc
            · exact absurd (by rw [hc]) hsig
            · rw [ht']
              simp only [List.cons_append, List.nil_append]
              rw [List.dropWhile_cons, if_pos (by simp [hc]), hd1c]
              simp only [List.cons_append]
              rw [List.dropWhile_cons, if_neg (by simp [hxws])]
          | cons d ds => simp at hlen
    have hhead : (d1 ++ '.' :: (d2 ++ (wsp ++ post))).head? = some x := by
      rw [hd1c]; rfl
    simp only [parseFloatQ, hdrop, hhead]
    simp [hs11, hs12, hs21, hs22, hre, applyExp_zero, specValue, hsig, hd1ne, hxm, hxp]

/-! ### Line splitting -/

theorem consSeg_nil (c : Char) (r : List Char) : consSeg c ([], r) = ([], c :: r) := rfl

theorem consSeg_cons (c : Char) (l : List Char) (ls : List (List Char)) (r : List Char) :
    consSeg c (l :: ls, r) = ((c :: l) :: ls, r) := rfl

theorem splitCRLF_crlf (rest : List Char) :
    splitCRLF ('\r' :: '\n' :: rest)
      = ([] :: (splitCRLF rest).1, (splitCRLF rest).2) := by
  simp [splitCRLF]

theorem splitCRLF_other {c d : Char} (rest : List Char) (h : ¬(c = '\r' ∧ d = '\n')) :
    splitCRLF (c :: d :: rest) = consSeg c (splitCRLF (d :: rest)) := by
  simp [splitCRLF, h]

/-- If the scan found no complete line, the remainder is the whole input. -/
theorem splitCRLF_rest_of_nil_lines :
    ∀ s : List Char, (splitCRLF s).1 = [] → (splitCRLF s).2 = s := by
  intro s
  induction s using splitCRLF.induct with
  | case1 => intro; rfl
  | case2 c => intro; rfl
  | case3 c d rest h ih =>
    obtain ⟨rfl, rfl⟩ := h
    rw [splitCRLF_crlf]
    intro hc
    simp at hc
  | case4 c d rest h ih =>
    rw [splitCRLF_other rest h]
    rcases hsp : splitCRLF (d :: rest) with ⟨L, r⟩
    cases L with
    | nil =>
      intro
      have := ih (by rw [hsp])
      rw [hsp] at this
      simp only [consSeg_nil]
      simp only at this
      rw [this]
    | cons l ls =>
      rw [consSeg_cons]
      intro hc
      simp at hc

/-- The remainder of the scan contains no line terminator. -/
theorem splitCRLF_rest_noCRLF :
    ∀ s : List Char, hasCRLF (splitCRLF s).2 = false := by
  intro s
  induction s using splitCRLF.induct with
  | case1 => rfl
  | case2 c => rfl
  | case3 c d rest h ih =>
    obtain ⟨rfl, rfl⟩ := h
    rw [splitCRLF_crlf]
    exact ih
  | case4 c d rest h ih =>
    rw [splitCRLF_other rest h]
    rcases hsp : splitCRLF (d :: rest) with ⟨L, r⟩
    rw [hsp] at ih
    cases L with
    | nil =>
      have hr : r = d :: rest := by
        have := splitCRLF_rest_of_nil_lines (d :: rest) (by rw [hsp])
        rw [hsp] at this
        exact this
      simp only [consSeg_nil]
      subst hr
      simp only [hasCRLF]
      rw [if_neg h]
      exact ih
    | cons l ls =>
      rw [consSeg_cons]
      exact ih

/-- The consumed lines, each with its terminator, followed by the remainder,
rebuild the input exactly. -/
theorem splitCRLF_reconstruct :
    ∀ s : List Char, joinCRLF (splitCRLF s).1 ++ (splitCRLF s).2 = s := by
  intro s
  induction s using splitCRLF.induct with
  | case1 => rfl
  | case2 c => rfl
  | case3 c d rest h ih =>
    obtain ⟨rfl, rfl⟩ := h
    rw [splitCRLF_crlf]
    simp only [joinCRLF, List.map_cons, List.flatten_cons, List.nil_append] at ih ⊢
    simp only [List.cons_append, List.nil_append, List.append_assoc] at ih ⊢
    rw [ih]
  | case4 c d rest h ih =>
    rcases hsp : splitCRLF (d :: rest) with ⟨L, r⟩
    rw [hsp] at ih
    rw [splitCRLF_other rest h, hsp]
    cases L with
    | nil =>
      simp only [consSeg_nil]
      simp only [joinCRLF, List.map_nil, List.flatten_nil, List.nil_append] at ih ⊢
      rw [ih]
    | cons l ls =>
      simp only [consSeg_cons]
      simp only [joinCRLF, List.map_cons, List.flatten_cons, List.cons_append,
        List.append_assoc] at ih ⊢
      rw [ih]

/-- Leftmost CRLF scanning is compositional: scanning `s ++ t` is scanning
`s`, then scanning the remainder of `s` glued to `t`. -/
theorem splitCRLF_append :
    ∀ s t : List Char,
      splitCRLF (s ++ t)
        = ((splitCRLF s).1 ++ (splitCRLF ((splitCRLF s).2 ++ t)).1,
           (splitCRLF ((splitCRLF s).2 ++ t)).2) := by
  intro s
  induction s using splitCRLF.induct with
  | case1 => intro t; simp [splitCRLF]
  | case2 c => intro t; simp [splitCRLF]
  | case3 c d rest h ih =>
    intro t
    obtain ⟨rfl, rfl⟩ := h
    rw [List.cons_append, List.cons_append, splitCRLF_crlf, splitCRLF_crlf,
      ih t]
    simp
  | case4 c d rest h ih =>
    intro t
    rcases hsp : splitCRLF (d :: rest) with ⟨L, r⟩
    have hstep : splitCRLF ((c :: d :: rest) ++ t)
        = consSeg c (splitCRLF ((d :: rest) ++ t)) := by
      rw [List.cons_append, List.cons_append, splitCRLF_other _ h]
    rw [hstep, ih t, hsp]
    rw [splitCRLF_other rest h, hsp]
    cases L with
    | nil =>
      have hr : r = d :: rest := by
        have := splitCRLF_rest_of_nil_lines (d :: rest) (by rw [hsp])
        rw [hsp] at this
        exact this
      subst hr
      simp only [consSeg_nil, List.nil_append, List.cons_append]
      rw [splitCRLF_other _ h]
    | cons l ls =>
      simp only [consSeg_cons, List.cons_append, List.append_assoc]

/-! ### The line loop -/

/-- Lines trimming to the prompt artifacts are skipped. -/
theorem processLine_prompt {line : List Char}
    (h : trimJS line = ['>'] ∨ trimJS line = ['T']) : processLine line = none := by
  rcases h with h | h <;> simp [processLine, h]

/-- A line decomposing per the spec's pattern yields exactly the reading
with the standard decimal value and the last-character unit. -/
theorem processLine_eq_some {line pre d1 d2 wsp post : List Char}
    (hgt : trimJS line ≠ ['>']) (hT : trimJS line ≠ ['T'])
    (h : SpecDecomp (trimJS line) pre d1 d2 wsp post) :
    processLine line = some ⟨specValue pre d1 d2, unitOf (trimJS line)⟩ := by
  have hr := regexTest_of_decomp h
  have hp := parseFloatQ_of_decomp h
  simp [processLine, hgt, hT, hr, hp]

/-- A non-prompt line produces a reading exactly when it matches the spec's
pattern. -/
theorem processLine_isSome_iff {line : List Char}
    (hgt : trimJS line ≠ ['>']) (hT : trimJS line ≠ ['T']) :
    (processLine line).isSome = true ↔ specPattern (trimJS line) := by
  constructor
  · intro h
    by_cases hr : regexTest (trimJS line) = true
    · exact decomp_of_regexTest hr
    · exfalso
      simp [processLine, hgt, hT, hr] at h
  · rintro ⟨pre, d1, d2, wsp, post, hd⟩
    rw [processLine_eq_some hgt hT hd]
    rfl

/-! ### Concrete line evaluations -/

theorem processLine_line235C : processLine ("23.5C".toList) = some ⟨47/2, "C"⟩ := by
  have h := @processLine_eq_some ("23.5C".toList) [] ['2', '3'] ['5'] [] ['C']
    (by decide) (by decide) (by decide)
  rw [h]
  have hu : unitOf (trimJS ("23.5C".toList)) = "C" := by decide
  have hn1 : natValue ['2', '3'] = 23 := by decide
  have hn2 : natValue ['5'] = 5 := by decide
  rw [hu]
  simp only [specValue, hn1, hn2]
  rw [if_neg (by decide)]
  norm_num [pow10]

theorem processLine_lineNeg10F : processLine ("-1.0F".toList) = some ⟨-1, "F"⟩ := by
  have h := @processLine_eq_some ("-1.0F".toList) ['-'] ['1'] ['0'] [] ['F']
    (by decide) (by decide) (by decide)
  rw [h]
  have hu : unitOf (trimJS ("-1.0F".toList)) = "F" := by decide
  have hn1 : natValue ['1'] = 1 := by decide
  have hn2 : natValue ['0'] = 0 := by decide
  rw [hu]
  simp only [specValue, hn1, hn2]
  rw [if_pos (by decide)]
  norm_num [pow10]

theorem processLine_line1234C : processLine ("12.34C".toList) = some ⟨617/50, "C"⟩ := by
  have h := @processLine_eq_some ("12.34C".toList) [] ['1', '2'] ['3', '4'] [] ['C']
    (by decide) (by decide) (by decide)
  rw [h]
  have hu : unitOf (trimJS ("12.34C".toList)) = "C" := by decide
  have hn1 : natValue ['1', '2'] = 12 := by decide
  have hn2 : natValue ['3', '4'] = 34 := by decide
  rw [hu]
  simp only [specValue, hn1, hn2]
  rw [if_neg (by decide)]
  norm_num [pow10]

theorem processLine_line125 : processLine ("12.5".toList) = some ⟨25/2, ""⟩ := by
  have h := @processLine_eq_some ("12.5".toList) [] ['1', '2'] ['5'] [] []
    (by decide) (by decide) (by decide)
  rw [h]
  have hu : unitOf (trimJS ("12.5".toList)) = "" := by decide
  have hn1 : natValue ['1', '2'] = 12 := by decide
  have hn2 : natValue ['5'] = 5 := by decide
  rw [hu]
  simp only [specValue, hn1, hn2]
  rw [if_neg (by decide)]
  norm_num [pow10]

/-! ### Buffer composition -/

/-- Processing a concatenation equals processing the first part and then the
second part glued to the leftover buffer, with events concatenated. -/
theorem processBuffer_append (s t : List Char) :
    processBuffer (s ++ t)
      = ((processBuffer ((processBuffer s).1 ++ t)).1,
         (processBuffer s).2 ++ (processBuffer ((processBuffer s).1 ++ t)).2) := by
  simp only [processBuffer]
  rw [splitCRLF_append s t]
  simp [List.filterMap_append]

/-- Two adjacent chunks can be fused without changing the final buffer or
the emitted readings. -/
theorem feedChunks_merge (s c1 c2 : List Char) (cs : List (List Char)) :
    feedChunks s (c1 :: c2 :: cs) = feedChunks s ((c1 ++ c2) :: cs) := by
  have h := processBuffer_append (s ++ c1) c2
  simp only [feedChunks]
  rw [show s ++ (c1 ++ c2) = s ++ c1 ++ c2 from (List.append_assoc s c1 c2).symm, h]
  simp [List.append_assoc]

theorem feedChunks_eq_single :
    ∀ (cs : List (List Char)) (s c : List Char),
      feedChunks s (c :: cs) = feedChunks s [c ++ cs.flatten] := by
  intro cs
  induction cs with
  | nil =>
    intro s c
    simp [feedChunks]
  | cons c2 cs ih =>
    intro s c
    rw [feedChunks_merge, ih, List.flatten_cons, List.append_assoc]

/-- Chunking does not matter: feeding any chunk list from an empty buffer is
the same as feeding their concatenation at once. -/
theorem feedChunks_flatten (chunks : List (List Char)) :
    feedChunks [] chunks = feedChunks [] [chunks.flatten] := by
  cases chunks with
  | nil => simp [feedChunks, processBuffer, splitCRLF]
  | cons c cs => rw [feedChunks_eq_single, List.flatten_cons]

/-! ### Claim C1 -/

/-- C1: for every completed inbound line, after trimming: the exact prompt
artifacts `>` and `T` emit nothing; otherwise a reading is emitted iff the
trimmed line matches the pattern (optional leading sign-or-whitespace
character, digits, a decimal point, digits, optional trailing whitespace
character, optional trailing unit letter C or F); on a match the value is
the standard decimal parse of the leading numeric portion and the unit is
the trimmed line's last character when it is C or F, else empty; and the
example lines `abc` and `12` are silently discarded. -/
theorem C1_line_parsing (line : List Char) :
    (trimJS line = ['>'] ∨ trimJS line = ['T'] → processLine line = none) ∧
    (trimJS line ≠ ['>'] → trimJS line ≠ ['T'] →
      ((processLine line).isSome = true ↔ specPattern (trimJS line))) ∧
    (∀ pre d1 d2 wsp post, trimJS line ≠ ['>'] → trimJS line ≠ ['T'] →
      SpecDecomp (trimJS line) pre d1 d2 wsp post →
      processLine line = some ⟨specValue pre d1 d2, unitOf (trimJS line)⟩) ∧
    processLine ("abc".toList) = none ∧ processLine ("12".toList) = none :=
  ⟨processLine_prompt,
   fun hgt hT => processLine_isSome_iff hgt hT,
   fun _ _ _ _ _ hgt hT hd => processLine_eq_some hgt hT hd,
   by decide, by decide⟩

/-- Witness for C1 at the concrete line `-12.3 F`. -/
theorem C1_line_parsing_witness :
    processLine ("-12.3 F".toList) = some ⟨-123/10, "F"⟩ := by
  have h := (C1_line_parsing ("-12.3 F".toList)).2.2.1 ['-'] ['1', '2'] ['3'] [' '] ['F']
    (by decide) (by decide) (by decide)
  rw [h]
  have hu : unitOf (trimJS ("-12.3 F".toList)) = "F" := by decide
  have hn1 : natValue ['1', '2'] = 12 := by decide
  have hn2 : natValue ['3'] = 3 := by decide
  rw [hu]
  simp only [specValue, hn1, hn2]
  rw [if_pos (by decide)]
  norm_num [pow10]

/-! ### Claim C2 -/

/-- C2: the reading events emitted by the on-data reaction depend only on
the concatenation of the delivered chunks, not on the chunk boundaries,
and the protocol example `23.5C CRLF -1.0F CRLF` yields exactly the ordered
readings 23.5 C then -1.0 F. -/
theorem C2_chunk_invariance :
    (∀ chunks : List (List Char), feedChunks [] chunks = feedChunks [] [chunks.flatten]) ∧
    feedChunks [] ["23.5C\r\n-1.0F\r\n".toList]
      = ([], [⟨47/2, "C"⟩, ⟨-1, "F"⟩]) := by
  constructor
  · exact feedChunks_flatten
  · have hs : splitCRLF ("23.5C\r\n-1.0F\r\n".toList)
        = (["23.5C".toList, "-1.0F".toList], []) := by decide
    have h1 : (splitCRLF ("23.5C\r\n-1.0F\r\n".toList)).1
        = ["23.5C".toList, "-1.0F".toList] := by rw [hs]
    have h2 : (splitCRLF ("23.5C\r\n-1.0F\r\n".toList)).2 = [] := by rw [hs]
    simp only [feedChunks, List.nil_append, processBuffer, h1, h2,
      List.filterMap_cons, List.filterMap_nil, processLine_line235C,
      processLine_lineNeg10F, List.append_nil]

/-! ### Claim C4 -/

/-- C4: delivering `12.3` and then `4C CRLF` from an empty buffer emits no
reading before the terminator arrives and exactly one reading 12.34 C after
it, never two partial emissions. -/
theorem C4_partial_line_buffering :
    feedChunks [] ["12.3".toList] = ("12.3".toList, []) ∧
    feedChunks [] ["12.3".toList, "4C\r\n".toList] = ([], [⟨617/50, "C"⟩]) := by
  have hs1 : splitCRLF ("12.3".toList) = ([], "12.3".toList) := by decide
  have h11 : (splitCRLF ("12.3".toList)).1 = [] := by rw [hs1]
  have h12 : (splitCRLF ("12.3".toList)).2 = "12.3".toList := by rw [hs1]
  constructor
  · simp only [feedChunks, List.nil_append, processBuffer, h11, h12,
      List.filterMap_nil, List.append_nil]
  · have hcat : "12.3".toList ++ "4C\r\n".toList = "12.34C\r\n".toList := by decide
    have hs2 : splitCRLF ("12.34C\r\n".toList) = (["12.34C".toList], []) := by decide
    have h21 : (splitCRLF ("12.34C\r\n".toList)).1 = ["12.34C".toList] := by rw [hs2]
    have h22 : (splitCRLF ("12.34C\r\n".toList)).2 = [] := by rw [hs2]
    simp only [feedChunks, List.nil_append, processBuffer, h11, h12,
      List.filterMap_nil, List.nil_append, hcat, h21, h22, List.filterMap_cons,
      processLine_line1234C, List.append_nil]

/-! ### Claim C6 -/

/-- C6: after each processing pass the line buffer contains no CRLF and is
exactly the unterminated tail of the input: the complete lines, each closed
by its CRLF terminator, followed by the new buffer, rebuild the processed
text, so all complete lines have been consumed and removed. -/
theorem C6_buffer_invariant (buf : List Char) :
    hasCRLF (processBuffer buf).1 = false ∧
    joinCRLF (splitCRLF buf).1 ++ (processBuffer buf).1 = buf :=
  ⟨splitCRLF_rest_noCRLF buf, splitCRLF_reconstruct buf⟩

/-! ### Port-list access -/

theorem portAt_lt {ps : List Port} {i : Nat} {p : Port}
    (h : portAt ps i = some p) : i < ps.length := by
  induction ps generalizing i with
  | nil => simp [portAt] at h
  | cons q qs ih =>
    cases i with
    | zero => simp
    | succ n =>
      simp only [portAt] at h
      simpa using Nat.succ_lt_succ (ih h)

theorem portAt_append_lt {ps qs : List Port} {i : Nat} (h : i < ps.length) :
    portAt (ps ++ qs) i = portAt ps i := by
  induction ps generalizing i with
  | nil => simp at h
  | cons p pst ih =>
    cases i with
    | zero => rfl
    | succ n =>
      simp only [List.cons_append, portAt]
      exact ih (by simpa using h)

theorem portAt_append_self (ps : List Port) (p : Port) :
    portAt (ps ++ [p]) ps.length = some p := by
  induction ps with
  | nil => rfl
  | cons q qs ih => simpa [portAt] using ih

theorem length_modifyPort (f : Port → Port) (ps : List Port) (i : Nat) :
    (modifyPort f ps i).length = ps.length := by
  induction ps generalizing i with
  | nil => rfl
  | cons p pst ih =>
    cases i with
    | zero => rfl
    | succ n => simpa [modifyPort] using ih n

theorem portAt_modify_self (f : Port → Port) (ps : List Port) (i : Nat) :
    portAt (modifyPort f ps i) i = (portAt ps i).map f := by
  induction ps generalizing i with
  | nil => rfl
  | cons p pst ih =>
    cases i with
    | zero => rfl
    | succ n => simpa [modifyPort, portAt] using ih n

theorem portAt_modify_ne (f : Port → Port) (ps : List Port) {i j : Nat}
    (h : i ≠ j) : portAt (modifyPort f ps j) i = portAt ps i := by
  induction ps generalizing i j with
  | nil => rfl
  | cons p pst ih =>
    cases j with
    | zero =>
      cases i with
      | zero => exact absurd rfl h
      | succ n => rfl
    | succ m =>
      cases i with
      | zero => rfl
      | succ n =>
        simp only [modifyPort, portAt]
        exact ih (by omega)

/-- Setting only the RTS line changes no port's open status. -/
theorem isOpenAt_modify_rts (ps : List Port) (i j : Nat) :
    isOpenAt (modifyPort (fun p => { p with rts := true }) ps j) i = isOpenAt ps i := by
  by_cases hij : i = j
  · subst hij
    simp only [isOpenAt, portAt_modify_self]
    cases portAt ps i <;> rfl
  · simp only [isOpenAt, portAt_modify_ne _ _ hij]

/-- Marking a port opened opens exactly that port and no other. -/
theorem isOpenAt_modify_opened_self {ps : List Port} {i : Nat} {p : Port}
    (h : portAt ps i = some p) (hc : p.closed = false) :
    isOpenAt (modifyPort (fun q => { q with opened := true }) ps i) i = true := by
  simp [isOpenAt, portAt_modify_self, h, hc]

theorem isOpenAt_modify_opened_ne (ps : List Port) {i j : Nat} (h : i ≠ j) :
    isOpenAt (modifyPort (fun q => { q with opened := true }) ps j) i = isOpenAt ps i := by
  simp only [isOpenAt, portAt_modify_ne _ _ h]

/-- Marking a port closed leaves no port open at that index. -/
theorem isOpenAt_modify_closed_self (ps : List Port) (i : Nat) :
    isOpenAt (modifyPort (fun q => { q with closed := true }) ps i) i = false := by
  simp only [isOpenAt, portAt_modify_self]
  cases portAt ps i <;> simp

theorem isOpenAt_modify_closed_ne (ps : List Port) {i j : Nat} (h : i ≠ j) :
    isOpenAt (modifyPort (fun q => { q with closed := true }) ps j) i = isOpenAt ps i := by
  simp only [isOpenAt, portAt_modify_ne _ _ h]

theorem isOpenAt_append_lt {ps qs : List Port} {i : Nat} (h : i < ps.length) :
    isOpenAt (ps ++ qs) i = isOpenAt ps i := by
  simp only [isOpenAt, portAt_append_lt h]

theorem isOpenAt_lt {ps : List Port} {i : Nat} (h : isOpenAt ps i = true) :
    i < ps.length := by
  unfold isOpenAt at h
  cases hp : portAt ps i with
  | none => rw [hp] at h; simp at h
  | some p => exact portAt_lt hp

theorem portAt_ge {ps : List Port} {i : Nat} (h : ps.length ≤ i) :
    portAt ps i = none := by
  induction ps generalizing i with
  | nil => rfl
  | cons p pst ih =>
    cases i with
    | zero => simp at h
    | succ n => exact ih (by simpa using h)

/-! ### Frame facts of the lifecycle operations -/

theorem stop_frame (s : Sys) :
    (stopTemperatureReading s).ports = s.ports ∧
    (stopTemperatureReading s).portTemperature = s.portTemperature ∧
    (stopTemperatureReading s).buffer = s.buffer ∧
    (stopTemperatureReading s).nextTimer = s.nextTimer ∧
    (stopTemperatureReading s).writes = s.writes ∧
    (stopTemperatureReading s).readings = s.readings := by
  cases h : s.readingInterval <;> simp [stopTemperatureReading, h]

theorem stop_readingInterval (s : Sys) :
    (stopTemperatureReading s).readingInterval = none := by
  cases h : s.readingInterval <;> simp [stopTemperatureReading, h]

theorem stop_timers_of_inv {s : Sys} (h : Inv s) :
    (stopTemperatureReading s).timers = [] := by
  obtain ⟨-, -, h3, h4, -⟩ := h
  cases hri : s.readingInterval with
  | none => simp [stopTemperatureReading, hri, h3 hri]
  | some id => simp [stopTemperatureReading, hri, h4 id hri]

theorem close_frame (s : Sys) :
    (closeCurrentIfOpen s).portTemperature = s.portTemperature ∧
    (closeCurrentIfOpen s).buffer = s.buffer ∧
    (closeCurrentIfOpen s).readingInterval = s.readingInterval ∧
    (closeCurrentIfOpen s).timers = s.timers ∧
    (closeCurrentIfOpen s).nextTimer = s.nextTimer ∧
    (closeCurrentIfOpen s).writes = s.writes ∧
    (closeCurrentIfOpen s).readings = s.readings ∧
    (closeCurrentIfOpen s).ports.length = s.ports.length := by
  cases h : s.portTemperature with
  | none => simp [closeCurrentIfOpen, h]
  | some pid =>
    by_cases ho : s.portIsOpen pid = true
    · simp [closeCurrentIfOpen, h, ho, length_modifyPort]
    · simp [closeCurrentIfOpen, h, ho]

/-- After the close branch of re-initialization, no port at all reports
open (given that beforehand only the current port could be open). -/
theorem close_no_open {s : Sys}
    (h2 : ∀ i, s.portIsOpen i = true → s.portTemperature = some i) :
    ∀ i, (closeCurrentIfOpen s).portIsOpen i = false := by
  intro i
  cases hpt : s.portTemperature with
  | none =>
    simp only [closeCurrentIfOpen, hpt]
    cases hio : s.portIsOpen i with
    | false => rfl
    | true => rw [h2 i hio] at hpt; exact absurd hpt (by simp)
  | some pid =>
    by_cases ho : s.portIsOpen pid = true
    · simp only [closeCurrentIfOpen, hpt, ho, if_true]
      by_cases hip : i = pid
      · subst hip
        exact isOpenAt_modify_closed_self s.ports i
      · show isOpenAt (modifyPort _ s.ports pid) i = false
        rw [isOpenAt_modify_closed_ne s.ports hip]
        cases hio : s.portIsOpen i with
        | false => exact hio
        | true =>
          have := h2 i hio
          rw [hpt] at this
          exact absurd (by simpa using this : pid = i).symm hip
    · simp only [closeCurrentIfOpen, hpt, if_neg ho]
      cases hio : s.portIsOpen i with
      | false => rfl
      | true =>
        have := h2 i hio
        rw [hpt] at this
        have hpe : pid = i := by simpa using this
        subst hpe
        exact absurd hio ho

/-- The projections of `initializeSerialPort`: buffer untouched, timer
handle cleared, the new port appended with the resolved configuration and
selected as current. -/
theorem init_fields (s : Sys) (path : String) (o : HH42Options) :
    (initializeSerialPort s path o).buffer = s.buffer ∧
    (initializeSerialPort s path o).readingInterval = none ∧
    (initializeSerialPort s path o).timers = (stopTemperatureReading s).timers ∧
    (initializeSerialPort s path o).portTemperature = some s.ports.length ∧
    (initializeSerialPort s path o).ports
      = (closeCurrentIfOpen (stopTemperatureReading s)).ports
          ++ [{ path := path, cfg := resolveConfig o,
                opened := false, closed := false, rts := false }] ∧
    (initializeSerialPort s path o).writes = s.writes ∧
    (initializeSerialPort s path o).readings = s.readings := by
  obtain ⟨hsp, hst, hsb, hsn, hsw, hsr⟩ := stop_frame s
  obtain ⟨hcp, hcb, hcr, hct, hcn, hcw, hcrd, hcl⟩ := close_frame (stopTemperatureReading s)
  refine ⟨?_, ?_, ?_, ?_, ?_, ?_, ?_⟩ <;>
    simp only [initializeSerialPort] <;>
    simp [hcb, hsb, hcr, stop_readingInterval, hct, hcl, hsp, hcw, hsw, hcrd, hsr]

/-! ### The re-initialization invariant -/

/-- `Inv` only reads ports, current index, timer handle and timer set, so
any operation leaving those intact preserves it. -/
theorem Inv_of_same_core {s t : Sys} (hp : t.ports = s.ports)
    (ht : t.portTemperature = s.portTemperature)
    (hr : t.readingInterval = s.readingInterval)
    (htm : t.timers = s.timers) (hI : Inv s) : Inv t := by
  obtain ⟨h1, h2, h3, h4, h5⟩ := hI
  refine ⟨?_, ?_, ?_, ?_, ?_⟩
  · intro pid hpid
    rw [hp]
    exact h1 pid (by rw [← ht]; exact hpid)
  · intro i hio
    rw [ht]
    refine h2 i ?_
    rw [show s.portIsOpen i = t.portIsOpen i from by unfold Sys.portIsOpen; rw [hp]]
    exact hio
  · intro hri
    rw [htm]
    exact h3 (by rw [← hr]; exact hri)
  · intro id hid
    rw [htm]
    exact h4 id (by rw [← hr]; exact hid)
  · intro hs
    have hco : isCurrentOpen t = isCurrentOpen s := by
      unfold isCurrentOpen Sys.portIsOpen
      rw [ht, hp]
    rw [hco]
    exact h5 (by rw [← hr]; exact hs)

theorem Inv_initState : Inv initState := by
  refine ⟨?_, ?_, ?_, ?_, ?_⟩ <;>
    simp [initState, Sys.portIsOpen, isOpenAt, portAt, isCurrentOpen]

/-- Immediately after `initializeSerialPort` no port reports open: the old
open one (if any) was closed, the new one has not opened yet. -/
theorem init_no_open {s : Sys} (path : String) (o : HH42Options)
    (h2 : ∀ i, s.portIsOpen i = true → s.portTemperature = some i) :
    ∀ i, (initializeSerialPort s path o).portIsOpen i = false := by
  intro i
  obtain ⟨-, -, -, -, hports, -, -⟩ := init_fields s path o
  have h2' : ∀ j, (stopTemperatureReading s).portIsOpen j = true
      → (stopTemperatureReading s).portTemperature = some j := by
    intro j hj
    obtain ⟨hsp, hst, -, -, -, -⟩ := stop_frame s
    rw [hst]
    refine h2 j ?_
    rw [show s.portIsOpen j = (stopTemperatureReading s).portIsOpen j from by
      unfold Sys.portIsOpen; rw [hsp]]
    exact hj
  have hclosed := close_no_open h2'
  show isOpenAt (initializeSerialPort s path o).ports i = false
  rw [hports]
  set c := (closeCurrentIfOpen (stopTemperatureReading s)).ports with hc
  rcases Nat.lt_trichotomy i c.length with hlt | heq | hgt
  · rw [isOpenAt_append_lt hlt]
    exact hclosed i
  · subst heq
    unfold isOpenAt
    rw [portAt_append_self]
    rfl
  · unfold isOpenAt
    rw [portAt_ge (by simp; omega)]

theorem Inv_init_case (s : Sys) (path : String) (o : HH42Options) (hI : Inv s) :
    Inv (initializeSerialPort s path o) := by
  obtain ⟨hbuf, hri, htm, hpt, hports, -, -⟩ := init_fields s path o
  have hnoopen := init_no_open path o hI.2.1
  refine ⟨?_, ?_, ?_, ?_, ?_⟩
  · intro pid hpid
    rw [hpt] at hpid
    rw [hports]
    obtain ⟨-, -, -, -, -, -, -, hcl⟩ := close_frame (stopTemperatureReading s)
    obtain ⟨hsp, -, -, -, -, -⟩ := stop_frame s
    injection hpid with hpid
    subst hpid
    simp [hcl, hsp]
  · intro i hio
    rw [hnoopen i] at hio
    exact absurd hio (by simp)
  · intro
    rw [htm, stop_timers_of_inv hI]
  · intro id hid
    rw [hri] at hid
    exact absurd hid (by simp)
  · intro hsome
    rw [hri] at hsome
    exact absurd hsome (by simp)

theorem Inv_stop_case (s : Sys) (hI : Inv s) : Inv (stopTemperatureReading s) := by
  obtain ⟨hsp, hst, -, -, -, -⟩ := stop_frame s
  refine ⟨?_, ?_, ?_, ?_, ?_⟩
  · intro pid hpid
    rw [hsp]
    exact hI.1 pid (by rw [hst] at hpid; exact hpid)
  · intro i hio
    rw [hst]
    refine hI.2.1 i ?_
    rw [show s.portIsOpen i = (stopTemperatureReading s).portIsOpen i from by
      unfold Sys.portIsOpen; rw [hsp]]
    exact hio
  · intro
    exact stop_timers_of_inv hI
  · intro id hid
    rw [stop_readingInterval s] at hid
    exact absurd hid (by simp)
  · intro hsome
    rw [stop_readingInterval s] at hsome
    exact absurd hsome (by simp)

theorem enterHostMode_fields (s : Sys) :
    (enterHostMode s).portTemperature = s.portTemperature ∧
    (enterHostMode s).readingInterval = s.readingInterval ∧
    (enterHostMode s).timers = s.timers ∧
    (enterHostMode s).nextTimer = s.nextTimer ∧
    (enterHostMode s).buffer = s.buffer ∧
    (enterHostMode s).writes = s.writes ∧
    (enterHostMode s).readings = s.readings ∧
    (enterHostMode s).ports.length = s.ports.length ∧
    (∀ i, (enterHostMode s).portIsOpen i = s.portIsOpen i) := by
  cases hpt : s.portTemperature with
  | none => simp [enterHostMode, hpt]
  | some pid =>
    by_cases ho : s.portIsOpen pid = true
    · refine ⟨?_, ?_, ?_, ?_, ?_, ?_, ?_, ?_, ?_⟩ <;>
        simp only [enterHostMode, hpt, ho, if_true] <;>
        first
          | rfl
          | exact length_modifyPort _ _ _
          | exact fun i => isOpenAt_modify_rts s.ports i pid
    · simp [enterHostMode, hpt, ho]

theorem request_fields_open {s : Sys} {pid : Nat}
    (hpt : s.portTemperature = some pid) (ho : s.portIsOpen pid = true) :
    requestTemperatureReading s
      = { s with readingInterval := some s.nextTimer,
                 timers := s.timers ++ [(s.nextTimer, 524)],
                 nextTimer := s.nextTimer + 1 } := by
  unfold requestTemperatureReading
  rw [hpt]
  simp [ho]

theorem fireOpen_fields {s : Sys} {pid : Nat} {p : Port}
    (hcur : s.portTemperature = some pid)
    (hp : portAt s.ports pid = some p) (hpc : p.closed = false) :
    (fireOpen s pid).portTemperature = some pid ∧
    (fireOpen s pid).readingInterval = some s.nextTimer ∧
    (fireOpen s pid).timers = s.timers ++ [(s.nextTimer, 524)] ∧
    (fireOpen s pid).buffer = s.buffer ∧
    (fireOpen s pid).writes = s.writes ∧
    (fireOpen s pid).readings = s.readings ∧
    (fireOpen s pid).ports.length = s.ports.length ∧
    (fireOpen s pid).portIsOpen pid = true ∧
    (∀ i, i ≠ pid → (fireOpen s pid).portIsOpen i = s.portIsOpen i) := by
  unfold fireOpen
  set ps1 := modifyPort (fun q => { q with opened := true }) s.ports pid with hps1
  have h1pt : ({ s with ports := ps1 } : Sys).portTemperature = some pid := hcur
  have h1open : ({ s with ports := ps1 } : Sys).portIsOpen pid = true := by
    rw [hps1]
    exact isOpenAt_modify_opened_self hp hpc
  obtain ⟨e1, e2, e3, e4, e5, e6, e7, e8, e9⟩ :=
    enterHostMode_fields { s with ports := ps1 }
  have h2pt : (enterHostMode { s with ports := ps1 }).portTemperature = some pid := by
    rw [e1]; exact h1pt
  have h2open : (enterHostMode { s with ports := ps1 }).portIsOpen pid = true := by
    rw [e9 pid]; exact h1open
  rw [request_fields_open h2pt h2open]
  refine ⟨h2pt, ?_, ?_, ?_, ?_, ?_, ?_, h2open, ?_⟩
  · rw [e4]
  · rw [show ({ s with ports := ps1 } : Sys).timers = s.timers from rfl] at e3
    rw [e3, e4]
  · rw [e5]
  · rw [e6]
  · rw [e7]
  · refine e8.trans ?_
    rw [hps1]
    exact length_modifyPort _ _ _
  · intro i hi
    refine (e9 i).trans ?_
    show isOpenAt ps1 i = isOpenAt s.ports i
    rw [hps1]
    exact isOpenAt_modify_opened_ne s.ports hi

theorem Inv_open_case {s : Sys} {pid : Nat} (hI : Inv s)
    (hcur : s.portTemperature = some pid) : Inv (step s (Act.openEvt pid)) := by
  obtain ⟨h1, h2, h3, h4, h5⟩ := hI
  simp only [step]
  by_cases hco : canOpen s pid = true
  swap
  · rw [if_neg hco]
    exact ⟨h1, h2, h3, h4, h5⟩
  rw [if_pos hco]
  obtain ⟨p, hp, hpo, hpc⟩ : ∃ p, portAt s.ports pid = some p ∧
      p.opened = false ∧ p.closed = false := by
    unfold canOpen at hco
    cases hpp : portAt s.ports pid with
    | none => rw [hpp] at hco; exact absurd hco (by simp)
    | some p =>
      rw [hpp] at hco
      simp only [Bool.and_eq_true, Bool.not_eq_true'] at hco
      exact ⟨p, rfl, hco.1, hco.2⟩
  have hnotopen : s.portIsOpen pid = false := by
    unfold Sys.portIsOpen isOpenAt
    rw [hp]
    simp [hpo]
  have hri : s.readingInterval = none := by
    cases hr : s.readingInterval with
    | none => rfl
    | some id =>
      exfalso
      have hiso : isCurrentOpen s = s.portIsOpen pid := by
        unfold isCurrentOpen
        rw [hcur]
      have h5' := h5 (by rw [hr]; rfl)
      rw [hiso, hnotopen] at h5'
      exact absurd h5' (by simp)
  have htimers : s.timers = [] := h3 hri
  obtain ⟨f1, f2, f3, f4, f5, f6, f7, f8, f9⟩ := fireOpen_fields hcur hp hpc
  refine ⟨?_, ?_, ?_, ?_, ?_⟩
  · intro q hq
    rw [f1] at hq
    injection hq with hq
    subst hq
    rw [f7]
    exact portAt_lt hp
  · intro i hio
    by_cases hi : i = pid
    · subst hi
      rw [f1]
    · rw [f9 i hi] at hio
      have := h2 i hio
      rw [hcur] at this
      exact absurd (by simpa using this : pid = i).symm hi
  · intro hn
    rw [f2] at hn
    exact absurd hn (by simp)
  · intro id hid
    rw [f2] at hid
    injection hid with hid
    subst hid
    rw [f3, htimers]
    rfl
  · intro _
    have hiso : isCurrentOpen (fireOpen s pid) = (fireOpen s pid).portIsOpen pid := by
      unfold isCurrentOpen
      rw [f1]
    rw [hiso]
    exact f8

theorem fireTick_core (s : Sys) :
    (fireTick s).ports = s.ports ∧ (fireTick s).portTemperature = s.portTemperature ∧
    (fireTick s).readingInterval = s.readingInterval ∧ (fireTick s).timers = s.timers ∧
    (fireTick s).buffer = s.buffer ∧ (fireTick s).readings = s.readings := by
  cases h : s.portTemperature <;> simp [fireTick, h]

theorem Inv_tick_case (s : Sys) (tid : Nat) (hI : Inv s) :
    Inv (step s (Act.tick tid)) := by
  simp only [step]
  split
  · obtain ⟨c1, c2, c3, c4, -, -⟩ := fireTick_core s
    exact Inv_of_same_core c1 c2 c3 c4 hI
  · exact hI

theorem Inv_data_case (s : Sys) (pid : Nat) (chunk : List Char) (hI : Inv s) :
    Inv (step s (Act.dataEvt pid chunk)) := by
  simp only [step]
  split
  · exact Inv_of_same_core rfl rfl rfl rfl hI
  · exact hI

theorem Inv_step {s : Sys} {a : Act} (hI : Inv s) (hg : GoodOpen s a) :
    Inv (step s a) := by
  cases a with
  | init path o => exact Inv_init_case s path o hI
  | stop => exact Inv_stop_case s hI
  | openEvt pid => exact Inv_open_case hI (hg pid rfl)
  | tick tid => exact Inv_tick_case s tid hI
  | dataEvt pid chunk => exact Inv_data_case s pid chunk hI

theorem Inv_foldl {s : Sys} {acts : List Act} (hg : GoodTrace s acts) :
    Inv s → Inv (acts.foldl step s) := by
  induction hg with
  | nil s => intro hI; simpa using hI
  | cons s a acts hga htr ih =>
    intro hI
    simpa using ih (Inv_step hI hga)

theorem timers_length_of_inv {s : Sys} (hI : Inv s) : s.timers.length ≤ 1 := by
  obtain ⟨-, -, h3, h4, -⟩ := hI
  cases hri : s.readingInterval with
  | none => rw [h3 hri]; simp
  | some id => rw [h4 id hri]; simp

theorem countP_le_one_of_unique {l : List Nat} {p : Nat → Bool} (hnd : l.Nodup)
    (h : ∀ a b, a ∈ l → b ∈ l → p a = true → p b = true → a = b) :
    l.countP p ≤ 1 := by
  induction l with
  | nil => simp
  | cons x xs ih =>
    rw [List.countP_cons]
    by_cases hx : p x = true
    · have hz : xs.countP p = 0 := by
        rw [List.countP_eq_zero]
        intro a ha
        intro hpa
        have hax := h a x (by simp [ha]) (by simp) hpa hx
        subst hax
        exact (List.nodup_cons.mp hnd).1 ha
      simp [hx, hz]
    · have hb : p x = false := by simpa using hx
      have := ih (List.nodup_cons.mp hnd).2
        (fun a b ha hb' hpa hpb => h a b (by simp [ha]) (by simp [hb']) hpa hpb)
      simp [hb]
      omega

theorem openCount_of_inv {s : Sys} (hI : Inv s) : openCount s ≤ 1 := by
  obtain ⟨-, h2, -, -, -⟩ := hI
  unfold openCount
  refine countP_le_one_of_unique (List.nodup_range _) ?_
  intro a b _ _ hpa hpb
  have ha := h2 a hpa
  have hb := h2 b hpb
  rw [ha] at hb
  injection hb

/-- Closing the current connection makes it stop reporting open. -/
theorem close_closes_current {s : Sys} {pid : Nat} (hpt : s.portTemperature = some pid)
    (ho : s.portIsOpen pid = true) :
    (closeCurrentIfOpen s).portIsOpen pid = false := by
  unfold closeCurrentIfOpen
  rw [hpt]
  simp only [ho, if_true]
  exact isOpenAt_modify_closed_self s.ports pid

/-! ### Claim C3 -/

/-- C3 counterexample: at the moment the connection finishes opening, no
write of `T CRLF` has occurred at all — the open handler only starts the
interval timer (`setInterval` does not fire its callback immediately), so
the claimed "exactly one write at the moment of open" is false. -/
theorem C3_no_write_at_open_counterexample :
    (run [Act.init "p" ⟨none, none, none, none⟩, Act.openEvt 0]).writes = [] := rfl

/-- C3 amended: when the connection finishes opening, no command is
written at that moment; instead a repeating 524 ms timer is started and
registered as the stored handle, every tick of an active timer writes
exactly one `T CRLF` to the current connection, a tick of a cancelled (or
never-created) timer does nothing, and `stopTemperatureReading` clears the
stored handle and deactivates its timer so no further writes occur. -/
theorem C3_poll_writes_amended :
    ((run [Act.init "p" ⟨none, none, none, none⟩, Act.openEvt 0]).writes = [] ∧
     (run [Act.init "p" ⟨none, none, none, none⟩, Act.openEvt 0]).readingInterval = some 0 ∧
     (run [Act.init "p" ⟨none, none, none, none⟩, Act.openEvt 0]).timers = [(0, 524)]) ∧
    (∀ (s : Sys) (tid pid : Nat),
      s.timers.any (fun tp => tp.1 = tid) = true → s.portTemperature = some pid →
      (step s (Act.tick tid)).writes = s.writes ++ [(pid, "T\r\n")]) ∧
    (∀ (s : Sys) (tid : Nat), s.timers.any (fun tp => tp.1 = tid) = false →
      step s (Act.tick tid) = s) ∧
    (∀ (s : Sys) (id : Nat), s.readingInterval = some id →
      (stopTemperatureReading s).readingInterval = none ∧
      ((stopTemperatureReading s).timers.any (fun tp => tp.1 = id)) = false) := by
  refine ⟨⟨rfl, rfl, rfl⟩, ?_, ?_, ?_⟩
  · intro s tid pid hany hpt
    simp only [step, hany, if_true]
    unfold fireTick
    rw [hpt]
  · intro s tid hany
    simp only [step, hany]
    rfl
  · intro s id hid
    refine ⟨stop_readingInterval s, ?_⟩
    simp only [stopTemperatureReading, hid]
    rw [List.any_eq_false]
    intro x hx
    have := List.of_mem_filter hx
    simp only [decide_eq_true_eq] at this ⊢
    exact this

/-- Witness for the amended C3: at the state reached after open, the active
timer's tick writes exactly one `T CRLF` to the current connection. -/
theorem C3_poll_writes_amended_witness :
    (step (run [Act.init "p" ⟨none, none, none, none⟩, Act.openEvt 0])
        (Act.tick 0)).writes
      = (run [Act.init "p" ⟨none, none, none, none⟩, Act.openEvt 0]).writes
          ++ [(0, "T\r\n")] :=
  C3_poll_writes_amended.2.1 _ 0 0 (by rfl) (by rfl)

/-! ### Claim C5 -/

/-- C5 counterexample: two `initialize` calls in quick succession (the
first port still opening, so `isOpen` is false and it is neither closed
nor its timer stopped), followed by both pending open events, leave two
active interval timers and two open connections at once. -/
theorem C5_double_timer_counterexample :
    (run [Act.init "A" ⟨none, none, none, none⟩, Act.init "B" ⟨none, none, none, none⟩,
        Act.openEvt 1, Act.openEvt 0]).timers.length = 2 ∧
    openCount (run [Act.init "A" ⟨none, none, none, none⟩,
        Act.init "B" ⟨none, none, none, none⟩, Act.openEvt 1, Act.openEvt 0]) = 2 :=
  ⟨rfl, rfl⟩

/-- C5 amended: every `initialize` call clears the stored timer handle and
closes the prior connection when that connection is open; and provided no
superseded connection still has an open event in flight (every open event
targets the then-current connection), at any instant there is at most one
active poll timer and at most one open connection. -/
theorem C5_reinit_supersedes_amended :
    (∀ (s : Sys) (path : String) (o : HH42Options),
        (initializeSerialPort s path o).readingInterval = none ∧
        (∀ pid, s.portTemperature = some pid → s.portIsOpen pid = true →
          (initializeSerialPort s path o).portIsOpen pid = false)) ∧
    (∀ acts : List Act, GoodTrace initState acts →
      (run acts).timers.length ≤ 1 ∧ openCount (run acts) ≤ 1) := by
  constructor
  · intro s path o
    refine ⟨(init_fields s path o).2.1, ?_⟩
    intro pid hpt hopen
    obtain ⟨hsp, hst, -, -, -, -⟩ := stop_frame s
    obtain ⟨-, -, -, -, hports, -, -⟩ := init_fields s path o
    show isOpenAt (initializeSerialPort s path o).ports pid = false
    rw [hports]
    have hlen : pid < (closeCurrentIfOpen (stopTemperatureReading s)).ports.length := by
      obtain ⟨-, -, -, -, -, -, -, hcl⟩ := close_frame (stopTemperatureReading s)
      rw [hcl, hsp]
      exact isOpenAt_lt hopen
    rw [isOpenAt_append_lt hlen]
    have hst1 : (stopTemperatureReading s).portTemperature = some pid := by
      rw [hst]; exact hpt
    have hop1 : (stopTemperatureReading s).portIsOpen pid = true := by
      show isOpenAt (stopTemperatureReading s).ports pid = true
      rw [hsp]
      exact hopen
    exact close_closes_current hst1 hop1
  · intro acts hg
    have hI := Inv_foldl hg Inv_initState
    exact ⟨timers_length_of_inv hI, openCount_of_inv hI⟩

/-- Witness for the amended C5 along a concrete well-sequenced trace:
initialize, open, re-initialize, open again — at most one timer remains. -/
theorem C5_reinit_supersedes_amended_witness :
    (run [Act.init "A" ⟨none, none, none, none⟩, Act.openEvt 0,
        Act.init "B" ⟨none, none, none, none⟩, Act.openEvt 1]).timers.length ≤ 1 := by
  refine (C5_reinit_supersedes_amended.2 _ ?_).1
  refine GoodTrace.cons _ _ _ ?_ (GoodTrace.cons _ _ _ ?_
    (GoodTrace.cons _ _ _ ?_ (GoodTrace.cons _ _ _ ?_ (GoodTrace.nil _))))
  · intro pid h
    exact Act.noConfusion h
  · intro pid h
    injection h with h
    subst h
    rfl
  · intro pid h
    exact Act.noConfusion h
  · intro pid h
    injection h with h
    subst h
    rfl

/-! ### Claim C7 -/

/-- C7: `stopTemperatureReading` cancels the timer and clears the stored
handle when one is active, is a no-op otherwise, and in every case leaves
the connection (ports), the current-port selection, the line buffer and
the event logs unchanged. -/
theorem C7_stop_frame (s : Sys) :
    (s.readingInterval = none → stopTemperatureReading s = s) ∧
    (∀ id, s.readingInterval = some id →
      (stopTemperatureReading s).readingInterval = none ∧
      (stopTemperatureReading s).timers = s.timers.filter (fun tp => tp.1 ≠ id)) ∧
    (stopTemperatureReading s).ports = s.ports ∧
    (stopTemperatureReading s).portTemperature = s.portTemperature ∧
    (stopTemperatureReading s).buffer = s.buffer ∧
    (stopTemperatureReading s).writes = s.writes ∧
    (stopTemperatureReading s).readings = s.readings := by
  obtain ⟨f1, f2, f3, f4, f5, f6⟩ := stop_frame s
  refine ⟨?_, ?_, f1, f2, f3, f5, f6⟩
  · intro h
    simp [stopTemperatureReading, h]
  · intro id hid
    refine ⟨stop_readingInterval s, ?_⟩
    simp [stopTemperatureReading, hid]

/-- Witness for C7 at a state with an active poll timer. -/
theorem C7_stop_frame_witness :
    (stopTemperatureReading (run [Act.init "p" ⟨none, none, none, none⟩,
        Act.openEvt 0])).readingInterval = none ∧
    (stopTemperatureReading (run [Act.init "p" ⟨none, none, none, none⟩,
        Act.openEvt 0])).buffer
      = (run [Act.init "p" ⟨none, none, none, none⟩, Act.openEvt 0]).buffer :=
  ⟨((C7_stop_frame _).2.1 0 rfl).1, (C7_stop_frame _).2.2.2.2.1⟩

/-! ### Claim C8 -/

/-- C8: port discovery maps the platform's port records to their
identifier strings, and any enumeration failure yields the empty list —
the function is total, so no failure propagates to the caller. -/
theorem C8_get_available_ports :
    (∀ ports : List PortInfo,
        getAvailablePorts (Except.ok ports) = ports.map (fun p => p.path)) ∧
    (∀ e : String, getAvailablePorts (Except.error e) = []) :=
  ⟨fun _ => rfl, fun _ => rfl⟩

/-! ### Claim C9 -/

/-- C9: re-initialization does not reset the line buffer — `initialize`
leaves the buffer field unchanged for every state, so a partial line from
the previous connection survives (concretely, `12.` buffered on the old
connection combines with `5 CRLF` from the new connection into the single
reading 12.5). -/
theorem C9_buffer_preserved_across_init :
    (∀ (s : Sys) (path : String) (o : HH42Options),
        (initializeSerialPort s path o).buffer = s.buffer) ∧
    (run [Act.init "A" ⟨none, none, none, none⟩, Act.openEvt 0,
        Act.dataEvt 0 ("12.".toList), Act.init "B" ⟨none, none, none, none⟩,
        Act.openEvt 1]).buffer = "12.".toList ∧
    (run [Act.init "A" ⟨none, none, none, none⟩, Act.openEvt 0,
        Act.dataEvt 0 ("12.".toList), Act.init "B" ⟨none, none, none, none⟩,
        Act.openEvt 1, Act.dataEvt 1 ("5\r\n".toList)]).readings
      = [⟨25/2, ""⟩] := by
  refine ⟨fun s path o => (init_fields s path o).1, rfl, ?_⟩
  have h6 : run [Act.init "A" ⟨none, none, none, none⟩, Act.openEvt 0,
      Act.dataEvt 0 ("12.".toList), Act.init "B" ⟨none, none, none, none⟩,
      Act.openEvt 1, Act.dataEvt 1 ("5\r\n".toList)]
      = step (run [Act.init "A" ⟨none, none, none, none⟩, Act.openEvt 0,
          Act.dataEvt 0 ("12.".toList), Act.init "B" ⟨none, none, none, none⟩,
          Act.openEvt 1]) (Act.dataEvt 1 ("5\r\n".toList)) := rfl
  rw [h6]
  have hopen : (run [Act.init "A" ⟨none, none, none, none⟩, Act.openEvt 0,
      Act.dataEvt 0 ("12.".toList), Act.init "B" ⟨none, none, none, none⟩,
      Act.openEvt 1]).portIsOpen 1 = true := rfl
  simp only [step, hopen, if_true]
  unfold onData
  have hb : (run [Act.init "A" ⟨none, none, none, none⟩, Act.openEvt 0,
      Act.dataEvt 0 ("12.".toList), Act.init "B" ⟨none, none, none, none⟩,
      Act.openEvt 1]).buffer = "12.".toList := rfl
  have hr : (run [Act.init "A" ⟨none, none, none, none⟩, Act.openEvt 0,
      Act.dataEvt 0 ("12.".toList), Act.init "B" ⟨none, none, none, none⟩,
      Act.openEvt 1]).readings = [] := rfl
  rw [hb, hr]
  have hcat : "12.".toList ++ "5\r\n".toList = "12.5\r\n".toList := by decide
  rw [hcat]
  have hsp : splitCRLF ("12.5\r\n".toList) = (["12.5".toList], []) := by decide
  have h1 : (splitCRLF ("12.5\r\n".toList)).1 = ["12.5".toList] := by rw [hsp]
  simp only [processBuffer, h1, List.filterMap_cons, processLine_line125,
    List.filterMap_nil, List.nil_append, List.append_nil]

/-! ### Claim C10 -/

/-- C10: options passed as falsy values (`baudRate` 0, `dataBits` 0,
`stopBits` 0, empty `parity`) are treated exactly like absent options —
the `||`-defaulting opens the new connection with 9600 / 8 / 1 / none
rather than the passed values. -/
theorem C10_falsy_options_default (s : Sys) (path : String) :
    resolveConfig ⟨some 0, some 0, some 0, some ""⟩
        = resolveConfig ⟨none, none, none, none⟩ ∧
    resolveConfig ⟨none, none, none, none⟩
        = { baudRate := 9600, dataBits := 8, stopBits := 1, parity := "none" } ∧
    ∃ pid,
      (initializeSerialPort s path ⟨some 0, some 0, some 0, some ""⟩).portTemperature
        = some pid ∧
      portAt (initializeSerialPort s path ⟨some 0, some 0, some 0, some ""⟩).ports pid
        = some { path := path,
                 cfg := { baudRate := 9600, dataBits := 8, stopBits := 1, parity := "none" },
                 opened := false, closed := false, rts := false } := by
  refine ⟨rfl, rfl, ?_⟩
  obtain ⟨-, -, -, hpt, hports, -, -⟩ := init_fields s path ⟨some 0, some 0, some 0, some ""⟩
  refine ⟨s.ports.length, hpt, ?_⟩
  rw [hports]
  obtain ⟨-, -, -, -, -, -, -, hcl⟩ := close_frame (stopTemperatureReading s)
  obtain ⟨hsp, -, -, -, -, -⟩ := stop_frame s
  have hlen : (closeCurrentIfOpen (stopTemperatureReading s)).ports.length
      = s.ports.length := by rw [hcl, hsp]
  rw [← hlen]
  rw [portAt_append_self]
  rfl

example : regexTest ("23.5C".toList) = true := by decide
example : regexTest ("-1.0".toList) = true := by decide
example : regexTest ("12".toList) = false := by decide
example : regexTest ("abc".toList) = false := by decide
example : processLine ("abc".toList) = none := by decide
example : splitCRLF ("23.5C\r\n-1.0F\r\n".toList)
    = (["23.5C".toList, "-1.0F".toList], []) := by decide

end HH42
